import Mathlib

/-!
Verification of the bell-tone synthesis scripts of the
no-nonsense-meditation repository.

The repository contains two Python source files:

* `generate_bells.py` — the canonical script: `generate_bell_tone`
  synthesizes a bell-like tone (five sine overtones, an exponential decay
  envelope, a 10 ms linear attack ramp, peak normalization to 0.8) and
  `save_bell_sound` quantizes the buffer to 16-bit signed PCM.
* `sound_explore.py` — a notebook variant whose `generate_bell_tone` uses a
  slightly different overtone table and adds three extra low-register
  overtones when the fundamental frequency is below 400 Hz.

We embed both, with real numbers standing for Python floats and rational
numbers for the numeric parameters, so that structural quantities (buffer
length, attack-sample count) are exactly computable.  Outcomes of a call to
`generate_bell_tone` are modelled by `BellResult`, which distinguishes a
normally returned buffer from the three failure behaviours the numpy code
actually exhibits (an all-NaN buffer from `0/0` normalization, a
`ValueError` from `np.max` on an empty array, and a broadcast error when
the attack slice is shorter than the attack envelope).
-/

open Real

namespace GenerateBells

/-- Python's `int(...)` applied to a rational: truncation toward zero. -/
def pyInt (q : ℚ) : ℤ :=
  if 0 ≤ q then ⌊q⌋ else ⌈q⌉

/-- `int(sample_rate * duration_sec)` — the number of samples produced by
`np.linspace(0, duration_sec, int(sample_rate * duration_sec))`. -/
def numSamples (duration_sec sample_rate : ℚ) : ℕ :=
  (pyInt (sample_rate * duration_sec)).toNat

/-- `attack_samples = int(0.01 * sample_rate)` — the 10 ms attack length. -/
def attackSamples (sample_rate : ℚ) : ℕ :=
  (pyInt (1 / 100 * sample_rate)).toNat

/-- Element `i` of `np.linspace(0, duration_sec, n)`: `duration_sec * i / (n - 1)`
(for `n = 1` numpy returns `[0.0]`, which the formula also gives since
division by zero is zero and the numerator is zero at `i = 0`). -/
noncomputable def tSample (duration_sec : ℚ) (n i : ℕ) : ℝ :=
  (duration_sec : ℝ) * i / ((n : ℝ) - 1)

/-- The harmonic sum of `generate_bells.py` at time `t`:
fundamental plus four overtones with weights 0.5, 0.3, 0.2, 0.15 at
frequency multiples 2, 3, 4.5, 5.4. -/
noncomputable def rawSample (frequency : ℚ) (t : ℝ) : ℝ :=
  Real.sin (2 * π * (frequency : ℝ) * t)
    + 0.5 * Real.sin (2 * π * ((frequency : ℝ) * 2) * t)
    + 0.3 * Real.sin (2 * π * ((frequency : ℝ) * 3) * t)
    + 0.2 * Real.sin (2 * π * ((frequency : ℝ) * (9 / 2)) * t)
    + 0.15 * Real.sin (2 * π * ((frequency : ℝ) * (27 / 5)) * t)

/-- The factor applied to sample `i` by
`signal[:attack_samples] *= attack_envelope`, where
`attack_envelope = np.linspace(0, 1, attack_samples)`: samples before the
attack length are scaled by `i / (attack_samples - 1)`, the rest are kept. -/
noncomputable def attackFactor (a i : ℕ) : ℝ :=
  if i < a then (i : ℝ) / ((a : ℝ) - 1) else 1

/-- The signal right before normalization: harmonic sum, times the
exponential decay envelope `exp(-3 t / duration)`, times the attack ramp. -/
noncomputable def shapedSignal (duration_sec frequency sample_rate : ℚ) : List ℝ :=
  (List.range (numSamples duration_sec sample_rate)).map (fun i =>
    rawSample frequency (tSample duration_sec (numSamples duration_sec sample_rate) i)
      * Real.exp (-3 * tSample duration_sec (numSamples duration_sec sample_rate) i
          / (duration_sec : ℝ))
      * attackFactor (attackSamples sample_rate) i)

/-- `np.max` of the absolute values of a list (0 for the empty list; the
code only consults it on nonempty buffers). -/
noncomputable def maxAbs (l : List ℝ) : ℝ :=
  l.foldr (fun x m => max |x| m) 0

/-- The possible outcomes of a call to `generate_bell_tone`:
a returned buffer, an all-NaN buffer of a given length (normalization
`signal / np.max(np.abs(signal))` when the peak is zero), a `ValueError`
from `np.max` on an empty array, or a numpy broadcast error from
`signal[:attack_samples] *= attack_envelope` when the buffer is shorter
than the attack envelope. -/
inductive BellResult where
  | ok (buf : List ℝ)
  | nanBuffer (len : ℕ)
  | valueError
  | broadcastError

/-- Length of the array a `BellResult` hands back to the caller, when one
is handed back at all. -/
def resultLength : BellResult → Option ℕ
  | .ok buf => some buf.length
  | .nanBuffer n => some n
  | .valueError => none
  | .broadcastError => none

/-- `generate_bell_tone(duration_sec, frequency, sample_rate)` of
`generate_bells.py`.  The steps mirror the source: build the time array and
the five-overtone harmonic sum, damp it by `exp(-3 t / duration_sec)`,
scale the first `attack_samples` samples by a linear ramp (a numpy
broadcast error if the buffer is shorter than the ramp), then normalize by
the peak absolute value times 0.8 (`np.max` raises on an empty buffer, and
a zero peak turns every sample into NaN). -/
noncomputable def generate_bell_tone (duration_sec frequency sample_rate : ℚ) :
    BellResult :=
  let n := numSamples duration_sec sample_rate
  let a := attackSamples sample_rate
  if n < a then .broadcastError
  else if n = 0 then .valueError
  else
    let s := shapedSignal duration_sec frequency sample_rate
    let m := maxAbs s
    if m = 0 then .nanBuffer n
    else .ok (s.map (fun x => x / m * 0.8))

/-- `np.int16(z)` on an integer value: wrap into the signed 16-bit range. -/
def wrap16 (z : ℤ) : ℤ :=
  (z + 32768) % 65536 - 32768

/-- Python/C truncation toward zero of a real (the value `np.int16` keeps
of a float before wrapping). -/
noncomputable def truncTowardZero (x : ℝ) : ℤ :=
  if 0 ≤ x then ⌊x⌋ else ⌈x⌉

/-- One sample of `np.int16(signal * 32767)`: scale by 32767, truncate
toward zero, wrap into the signed 16-bit range. -/
noncomputable def quantizeSample (s : ℝ) : ℤ :=
  wrap16 (truncTowardZero (s * 32767))

/-- `save_bell_sound(filename, signal, sample_rate)` of `generate_bells.py`,
restricted to its data content (the WAV write and the progress print are
I/O).  The first component is `audio_int16 = np.int16(signal * 32767)`;
the second is the caller's `signal` buffer as it stands after the call —
unchanged, because `signal * 32767` and `np.int16(...)` both allocate new
arrays and `signal` itself is never reassigned or mutated in place. -/
noncomputable def save_bell_sound (signal : List ℝ) : List ℤ × List ℝ :=
  (signal.map quantizeSample, signal)

/-- Modelled from the spec: Python's `round` (banker's rounding, half to
even), used by the spec's description of buffer length and quantization;
the source code itself calls `int(...)` and `np.int16(...)` instead. -/
def specRound (q : ℚ) : ℤ :=
  if Int.fract q < 1 / 2 then ⌊q⌋
  else if 1 / 2 < Int.fract q then ⌊q⌋ + 1
  else if Even ⌊q⌋ then ⌊q⌋ else ⌊q⌋ + 1

/-- Modelled from the spec: banker's rounding on a real sample value. -/
noncomputable def specRoundReal (x : ℝ) : ℤ :=
  if Int.fract x < 1 / 2 then ⌊x⌋
  else if 1 / 2 < Int.fract x then ⌊x⌋ + 1
  else if Even ⌊x⌋ then ⌊x⌋ else ⌊x⌋ + 1

/-- Modelled from the spec: the quantization the spec claims for
`save_bell_sound` — `round(s * 32767)` clipped to the signed 16-bit
range. -/
noncomputable def specQuantizeSample (s : ℝ) : ℤ :=
  max (-32768) (min 32767 (specRoundReal (s * 32767)))

end GenerateBells

namespace SoundExplore

/-- The harmonic sum of the notebook variant `sound_explore.py` at time
`t`, without the low-frequency extras: fundamental plus overtones with
weights 0.5, 0.3, 0.15, 0.125 at frequency multiples 2, 3, 4.25, 5.125. -/
noncomputable def baseHarmonics (frequency : ℚ) (t : ℝ) : ℝ :=
  Real.sin (2 * π * (frequency : ℝ) * t)
    + 0.5 * Real.sin (2 * π * ((frequency : ℝ) * 2) * t)
    + 0.3 * Real.sin (2 * π * ((frequency : ℝ) * 3) * t)
    + 0.15 * Real.sin (2 * π * ((frequency : ℝ) * (17 / 4)) * t)
    + 0.125 * Real.sin (2 * π * ((frequency : ℝ) * (41 / 8)) * t)

/-- The harmonic sum of `generate_bell_tone` in `sound_explore.py` at time
`t`, transcribed from the source: the base overtone sum, and, when
`frequency < 400`, three extra low-register overtones of weights 0.05,
0.025, 0.05 at frequency multiples 4, 6, 8.5. -/
noncomputable def rawSample (frequency : ℚ) (t : ℝ) : ℝ :=
  let s := Real.sin (2 * π * (frequency : ℝ) * t)
    + 0.5 * Real.sin (2 * π * ((frequency : ℝ) * 2) * t)
    + 0.3 * Real.sin (2 * π * ((frequency : ℝ) * 3) * t)
    + 0.15 * Real.sin (2 * π * ((frequency : ℝ) * (17 / 4)) * t)
    + 0.125 * Real.sin (2 * π * ((frequency : ℝ) * (41 / 8)) * t)
  if frequency < 400 then
    s + 0.05 * Real.sin (2 * π * ((frequency : ℝ) * 4) * t)
      + 0.025 * Real.sin (2 * π * ((frequency : ℝ) * 6) * t)
      + 0.05 * Real.sin (2 * π * ((frequency : ℝ) * (17 / 2)) * t)
  else s

end SoundExplore

namespace GenerateBells

/-- Evaluation helper: `pyInt` agrees with the floor on nonnegative inputs. -/
lemma pyInt_of_nonneg (q : ℚ) (h : 0 ≤ q) : pyInt q = ⌊q⌋ := by
  unfold pyInt
  exact if_pos h

/-- Evaluation helper for `numSamples` through a computed floor. -/
lemma numSamples_eq (d sr : ℚ) (k : ℕ) (h0 : 0 ≤ sr * d) (h : ⌊sr * d⌋ = (k : ℤ)) :
    numSamples d sr = k := by
  unfold numSamples
  rw [pyInt_of_nonneg _ h0, h]
  exact Int.toNat_natCast k

/-- Evaluation helper for `attackSamples` through a computed floor. -/
lemma attackSamples_eq (sr : ℚ) (k : ℕ) (h0 : 0 ≤ 1 / 100 * sr)
    (h : ⌊1 / 100 * sr⌋ = (k : ℤ)) : attackSamples sr = k := by
  unfold attackSamples
  rw [pyInt_of_nonneg _ h0, h]
  exact Int.toNat_natCast k

lemma maxAbs_nil : maxAbs [] = 0 := rfl

lemma maxAbs_cons (x : ℝ) (l : List ℝ) : maxAbs (x :: l) = max |x| (maxAbs l) := rfl

lemma maxAbs_nonneg (l : List ℝ) : 0 ≤ maxAbs l := by
  induction l with
  | nil => exact le_refl 0
  | cons x xs ih => exact le_trans ih (by rw [maxAbs_cons]; exact le_max_right _ _)

lemma abs_le_maxAbs (l : List ℝ) (x : ℝ) (hx : x ∈ l) : |x| ≤ maxAbs l := by
  induction l with
  | nil => cases hx
  | cons y ys ih =>
      rw [maxAbs_cons]
      rcases List.mem_cons.mp hx with h | h
      · exact h ▸ le_max_left _ _
      · exact le_trans (ih h) (le_max_right _ _)

lemma maxAbs_map_mul (l : List ℝ) (c : ℝ) (hc : 0 ≤ c) :
    maxAbs (l.map (fun x => x * c)) = maxAbs l * c := by
  induction l with
  | nil => simp [maxAbs_nil]
  | cons x xs ih =>
      rw [List.map_cons, maxAbs_cons, maxAbs_cons, ih, abs_mul, abs_of_nonneg hc,
        max_mul_of_nonneg _ _ hc]

lemma maxAbs_eq_zero_of_all_zero (l : List ℝ) (h : ∀ x ∈ l, x = 0) : maxAbs l = 0 := by
  induction l with
  | nil => rfl
  | cons x xs ih =>
      rw [maxAbs_cons, h x (List.mem_cons_self x xs), ih fun y hy => h y (List.mem_cons_of_mem x hy)]
      simp

/-- The harmonic sum vanishes at time zero: every sine has argument 0. -/
lemma rawSample_at_zero (f : ℚ) : rawSample f 0 = 0 := by
  simp [rawSample]

/-- The harmonic sum vanishes at frequency zero: every sine has argument 0. -/
lemma rawSample_freq_zero (t : ℝ) : rawSample 0 t = 0 := by
  simp [rawSample]

lemma shapedSignal_length (d f sr : ℚ) :
    (shapedSignal d f sr).length = numSamples d sr := by
  simp [shapedSignal]

/-- Inversion of the success case of `generate_bell_tone`: a returned
buffer is the shaped signal scaled by `0.8 / peak`, with a positive peak,
a nonempty buffer, and an attack ramp that fits. -/
lemma generate_ok_inv (d f sr : ℚ) (buf : List ℝ)
    (h : generate_bell_tone d f sr = .ok buf) :
    attackSamples sr ≤ numSamples d sr ∧ numSamples d sr ≠ 0 ∧
      0 < maxAbs (shapedSignal d f sr) ∧
      buf = (shapedSignal d f sr).map
        (fun x => x / maxAbs (shapedSignal d f sr) * 0.8) := by
  simp only [generate_bell_tone] at h
  split_ifs at h with h1 h2 h3
  refine ⟨not_lt.mp h1, h2, ?_, ?_⟩
  · exact lt_of_le_of_ne (maxAbs_nonneg _) (Ne.symm h3)
  · exact (BellResult.ok.injEq _ _).mp h |>.symm

/-- Evaluation of `numSamples` from rational bounds. -/
lemma numSamples_eval (d sr : ℚ) (k : ℕ) (h1 : (k : ℚ) ≤ sr * d)
    (h2 : sr * d < k + 1) : numSamples d sr = k := by
  refine numSamples_eq d sr k (le_trans (by positivity) h1) (Int.floor_eq_iff.mpr ⟨?_, ?_⟩)
  · exact_mod_cast h1
  · push_cast
    exact h2

/-- Evaluation of `attackSamples` from rational bounds. -/
lemma attackSamples_eval (sr : ℚ) (k : ℕ) (h1 : (k : ℚ) ≤ 1 / 100 * sr)
    (h2 : 1 / 100 * sr < k + 1) : attackSamples sr = k := by
  refine attackSamples_eq sr k (le_trans (by positivity) h1) (Int.floor_eq_iff.mpr ⟨?_, ?_⟩)
  · exact_mod_cast h1
  · push_cast
    exact h2

/-- At duration 1, frequency 1/2 and sample rate 2 the buffer has two
samples, at times 0 and 1; the sample at time 1 evaluates to a sum in
which the fundamental and the first two overtones vanish. -/
lemma raw_half_at_one :
    rawSample (1 / 2) 1 = 0.2 + 0.15 * Real.sin (2 * π * (27 / 10)) := by
  have hc : ((1 / 2 : ℚ) : ℝ) = 1 / 2 := by norm_num
  unfold rawSample
  rw [hc]
  rw [show (2 : ℝ) * π * (1 / 2) * 1 = π by ring, Real.sin_pi]
  rw [show (2 : ℝ) * π * (1 / 2 * 2) * 1 = 2 * π by ring, Real.sin_two_pi]
  rw [show (2 : ℝ) * π * (1 / 2 * 3) * 1 = π + 2 * π by ring, Real.sin_add_two_pi,
    Real.sin_pi]
  rw [show (2 : ℝ) * π * (1 / 2 * (9 / 2)) * 1 = π / 2 + ((2 : ℤ) : ℝ) * (2 * π) by
    push_cast; ring, Real.sin_add_int_mul_two_pi, Real.sin_pi_div_two]
  rw [show (2 : ℝ) * π * (1 / 2 * (27 / 5)) * 1 = 2 * π * (27 / 10) by ring]
  ring

/-- The sample at time 1 is strictly positive: 0.2 exactly from the
overtone at multiple 4.5, minus at most 0.15 from the one at 5.4. -/
lemma raw_half_pos : 0 < rawSample (1 / 2) 1 := by
  rw [raw_half_at_one]
  have h := Real.neg_one_le_sin (2 * π * (27 / 10))
  nlinarith

lemma shaped_example :
    shapedSignal 1 (1 / 2) 2 = [0, rawSample (1 / 2) 1 * Real.exp (-3)] := by
  have hn : numSamples 1 2 = 2 := numSamples_eval 1 2 2 (by norm_num) (by norm_num)
  have ha : attackSamples 2 = 0 := attackSamples_eval 2 0 (by norm_num) (by norm_num)
  unfold shapedSignal
  rw [hn, ha, show List.range 2 = [0, 1] from rfl]
  simp only [List.map_cons, List.map_nil]
  have ht0 : tSample 1 2 0 = 0 := by unfold tSample; norm_num
  have ht1 : tSample 1 2 1 = 1 := by unfold tSample; norm_num
  have hat : ∀ i : ℕ, attackFactor 0 i = 1 := fun i => by
    unfold attackFactor
    rw [if_neg (Nat.not_lt_zero i)]
  rw [ht0, ht1, rawSample_at_zero, hat 0, hat 1]
  norm_num

lemma shaped_example_pos : 0 < rawSample (1 / 2) 1 * Real.exp (-3) :=
  mul_pos raw_half_pos (Real.exp_pos _)

lemma maxAbs_example :
    maxAbs (shapedSignal 1 (1 / 2) 2) = rawSample (1 / 2) 1 * Real.exp (-3) := by
  rw [shaped_example, maxAbs_cons, maxAbs_cons, maxAbs_nil, abs_zero,
    abs_of_pos shaped_example_pos, max_eq_left shaped_example_pos.le,
    max_eq_right shaped_example_pos.le]

/-- A fully evaluated call: duration 1 s, frequency 0.5 Hz, sample rate
2 Hz yields the two-sample buffer `[0, 0.8]`. -/
lemma gen_example : generate_bell_tone 1 (1 / 2) 2 = .ok [0, 0.8] := by
  have hn : numSamples 1 2 = 2 := numSamples_eval 1 2 2 (by norm_num) (by norm_num)
  have ha : attackSamples 2 = 0 := attackSamples_eval 2 0 (by norm_num) (by norm_num)
  simp only [generate_bell_tone, hn, ha]
  rw [if_neg (by norm_num), if_neg (by norm_num), maxAbs_example,
    if_neg (ne_of_gt shaped_example_pos), shaped_example]
  simp only [List.map_cons, List.map_nil, zero_div, zero_mul,
    div_self (ne_of_gt shaped_example_pos), one_mul]

/-- C1: for valid parameters, a buffer actually returned by
`generate_bell_tone` (the shaped signal was not identically zero) has peak
absolute amplitude exactly 0.8, and every sample lies in `[-0.8, 0.8]`. -/
theorem generate_peak_normalized (d f sr : ℚ) (buf : List ℝ)
    (hd : 0 < d) (hf : 0 < f) (hsr : 0 < sr)
    (h : generate_bell_tone d f sr = .ok buf) :
    maxAbs buf = 0.8 ∧ ∀ x ∈ buf, -0.8 ≤ x ∧ x ≤ 0.8 := by
  obtain ⟨-, -, hm, hbuf⟩ := generate_ok_inv d f sr buf h
  have hmap : buf = (shapedSignal d f sr).map
      (fun x => x * (0.8 / maxAbs (shapedSignal d f sr))) := by
    rw [hbuf]
    exact List.map_congr_left fun x _ => by ring
  have hpeak : maxAbs buf = 0.8 := by
    rw [hmap, maxAbs_map_mul _ _ (by positivity)]
    field_simp
  refine ⟨hpeak, fun x hx => ?_⟩
  have hb := abs_le_maxAbs buf x hx
  rw [hpeak] at hb
  exact ⟨by linarith [neg_abs_le x], by linarith [le_abs_self x]⟩

/-- Witness for C1 at duration 1, frequency 1/2, sample rate 2: the
returned buffer is `[0, 0.8]` and its peak is 0.8. -/
theorem generate_peak_normalized_witness : maxAbs [0, (0.8 : ℝ)] = 0.8 :=
  (generate_peak_normalized 1 (1 / 2) 2 [0, 0.8] (by norm_num) (by norm_num)
    (by norm_num) gen_example).1

/-- The first element of a nonempty shaped signal is 0: it is the harmonic
sum at time 0, which vanishes, times the envelopes. -/
lemma shapedSignal_head (d f sr : ℚ) (hn : numSamples d sr ≠ 0) :
    (shapedSignal d f sr).head? = some 0 := by
  unfold shapedSignal
  obtain ⟨k, hk⟩ := Nat.exists_eq_succ_of_ne_zero hn
  rw [hk, List.range_succ_eq_map, List.map_cons, List.head?_cons]
  have ht : tSample d (k + 1) 0 = 0 := by
    unfold tSample
    simp
  rw [ht, rawSample_at_zero]
  simp

/-- C7: for valid parameters with duration at least 10 ms, the first
sample of a buffer returned by `generate_bell_tone` is exactly 0: the
attack ramp starts at zero gain (and the harmonic sum itself vanishes at
time 0), and normalization preserves zeros. -/
theorem generate_first_sample_zero (d f sr : ℚ) (buf : List ℝ)
    (hd : 1 / 100 ≤ d) (hf : 0 < f) (hsr : 0 < sr)
    (h : generate_bell_tone d f sr = .ok buf) :
    buf.head? = some 0 := by
  obtain ⟨-, hn, -, hbuf⟩ := generate_ok_inv d f sr buf h
  rw [hbuf, List.head?_map, shapedSignal_head d f sr hn]
  simp

/-- Witness for C7 at duration 1, frequency 1/2, sample rate 2. -/
theorem generate_first_sample_zero_witness : ([0, (0.8 : ℝ)]).head? = some 0 :=
  generate_first_sample_zero 1 (1 / 2) 2 [0, 0.8] (by norm_num) (by norm_num)
    (by norm_num) gen_example

/-- Whenever the attack ramp fits and the buffer is nonempty, the array
handed back (a normal buffer, or the all-NaN buffer when the peak is zero)
has exactly `numSamples` elements. -/
lemma bell_resultLength (d f sr : ℚ) (h1 : attackSamples sr ≤ numSamples d sr)
    (h2 : numSamples d sr ≠ 0) :
    resultLength (generate_bell_tone d f sr) = some (numSamples d sr) := by
  simp only [generate_bell_tone]
  rw [if_neg (not_lt.mpr h1), if_neg h2]
  split_ifs with h3
  · rfl
  · simp [resultLength, shapedSignal_length]

/-- C2 (amended): the buffer returned by `generate_bell_tone` has length
`int(sample_rate * duration_sec)` — truncation toward zero, not rounding —
whenever a buffer is produced at all; at 2.5 s and 44100 Hz this is
110250 samples, and at 1.5 s it is 66150. -/
theorem bell_buffer_length (d f sr : ℚ)
    (h1 : attackSamples sr ≤ numSamples d sr) (h2 : numSamples d sr ≠ 0) :
    resultLength (generate_bell_tone d f sr) = some (numSamples d sr)
      ∧ numSamples (5 / 2) 44100 = 110250 ∧ numSamples (3 / 2) 44100 = 66150 :=
  ⟨bell_resultLength d f sr h1 h2,
    numSamples_eval _ _ _ (by norm_num) (by norm_num),
    numSamples_eval _ _ _ (by norm_num) (by norm_num)⟩

/-- Witness for C2 at the start-bell parameters (2.5 s, 528 Hz, 44100 Hz). -/
theorem bell_buffer_length_witness :
    resultLength (generate_bell_tone (5 / 2) 528 44100) = some (numSamples (5 / 2) 44100) :=
  (bell_buffer_length (5 / 2) 528 44100
    (by rw [numSamples_eval (5 / 2) 44100 110250 (by norm_num) (by norm_num),
          attackSamples_eval 44100 441 (by norm_num) (by norm_num)]; norm_num)
    (by rw [numSamples_eval (5 / 2) 44100 110250 (by norm_num) (by norm_num)]; norm_num)).1

/-- C2 counterexample: at duration 3.5 s, frequency 1 Hz, sample rate 1 Hz
the code hands back a buffer of `int(3.5) = 3` samples, while
`round(duration_sec * sample_rate) = 4`. -/
theorem bell_length_not_round :
    resultLength (generate_bell_tone (7 / 2) 1 1) = some 3
      ∧ specRound (7 / 2 * 1) = 4
      ∧ resultLength (generate_bell_tone (7 / 2) 1 1) ≠ some (specRound (7 / 2 * 1)).toNat := by
  have hn : numSamples (7 / 2) 1 = 3 := numSamples_eval _ _ _ (by norm_num) (by norm_num)
  have ha : attackSamples 1 = 0 := attackSamples_eval _ _ (by norm_num) (by norm_num)
  have hlen : resultLength (generate_bell_tone (7 / 2) 1 1) = some 3 := by
    rw [bell_resultLength (7 / 2) 1 1 (by rw [hn, ha]; norm_num) (by rw [hn]; norm_num), hn]
  have hfl : ⌊(7 / 2 * 1 : ℚ)⌋ = 3 := Int.floor_eq_iff.mpr (by norm_num)
  have hfr : Int.fract (7 / 2 * 1 : ℚ) = 1 / 2 := by
    unfold Int.fract
    rw [hfl]
    norm_num
  have hr : specRound (7 / 2 * 1) = 4 := by
    unfold specRound
    rw [hfr, hfl, if_neg (by norm_num), if_neg (by norm_num), if_neg (by decide)]
    norm_num
  refine ⟨hlen, hr, ?_⟩
  rw [hlen, hr]
  simp

/-- C3: the code performs no parameter validation.  At frequency 0 (and
positive duration) it returns an all-NaN buffer — the shaped signal is
identically zero, so normalization divides zero by zero — and at duration
0 it raises a numpy broadcast error in the attack step; neither is an
invalid-parameter error raised before synthesis. -/
theorem invalid_params_not_rejected :
    generate_bell_tone 1 0 44100 = .nanBuffer 44100
      ∧ generate_bell_tone 0 440 44100 = .broadcastError := by
  have ha : attackSamples 44100 = 441 := attackSamples_eval _ _ (by norm_num) (by norm_num)
  constructor
  · have hn : numSamples 1 44100 = 44100 := numSamples_eval _ _ _ (by norm_num) (by norm_num)
    have hz : maxAbs (shapedSignal 1 0 44100) = 0 := by
      apply maxAbs_eq_zero_of_all_zero
      intro x hx
      unfold shapedSignal at hx
      obtain ⟨i, -, rfl⟩ := List.mem_map.mp hx
      rw [rawSample_freq_zero]
      ring
    simp only [generate_bell_tone, hn, ha]
    rw [if_neg (by norm_num), if_neg (by norm_num), if_pos hz]
  · have hn0 : numSamples 0 44100 = 0 := numSamples_eval _ _ _ (by norm_num) (by norm_num)
    simp only [generate_bell_tone, hn0, ha]
    rw [if_pos (by norm_num)]

/-- C4: when the shaped signal is identically zero (frequency 0 makes
every sine vanish), the code divides by a zero peak and returns an all-NaN
buffer instead of raising a degenerate-signal error. -/
theorem zero_signal_gives_nan_buffer :
    generate_bell_tone 1 0 100 = .nanBuffer 100 := by
  have hn : numSamples 1 100 = 100 := numSamples_eval _ _ _ (by norm_num) (by norm_num)
  have ha : attackSamples 100 = 1 := attackSamples_eval _ _ (by norm_num) (by norm_num)
  have hz : maxAbs (shapedSignal 1 0 100) = 0 := by
    apply maxAbs_eq_zero_of_all_zero
    intro x hx
    unfold shapedSignal at hx
    obtain ⟨i, -, rfl⟩ := List.mem_map.mp hx
    rw [rawSample_freq_zero]
    ring
  simp only [generate_bell_tone, hn, ha]
  rw [if_neg (by norm_num), if_neg (by norm_num), if_pos hz]

/-- C6: at a 5 ms duration and 44100 Hz the buffer has 220 samples, fewer
than the 441-sample attack envelope, and the in-place multiplication
`signal[:attack_samples] *= attack_envelope` raises a numpy broadcast
error: the ramp is not clamped and no buffer is returned. -/
theorem short_duration_attack_error :
    generate_bell_tone (1 / 200) 440 44100 = .broadcastError := by
  have hn : numSamples (1 / 200) 44100 = 220 :=
    numSamples_eval _ _ _ (by norm_num) (by norm_num)
  have ha : attackSamples 44100 = 441 := attackSamples_eval _ _ (by norm_num) (by norm_num)
  simp only [generate_bell_tone, hn, ha]
  rw [if_pos (by norm_num)]

/-- C8: `generate_bell_tone` is a pure function of its three parameters —
the embedding carries no state, randomness or I/O — so two invocations on
identical inputs yield identical results. -/
theorem generate_bell_tone_deterministic (d₁ f₁ r₁ d₂ f₂ r₂ : ℚ)
    (hd : d₁ = d₂) (hf : f₁ = f₂) (hr : r₁ = r₂) :
    generate_bell_tone d₁ f₁ r₁ = generate_bell_tone d₂ f₂ r₂ := by
  rw [hd, hf, hr]

/-- Witness for C8: two calls with (equal) concrete arguments agree. -/
theorem generate_bell_tone_deterministic_witness :
    generate_bell_tone (2 / 2) (1 / 2) 2 = generate_bell_tone 1 (1 / 2) 2 :=
  generate_bell_tone_deterministic (2 / 2) (1 / 2) 2 1 (1 / 2) 2 (by norm_num) rfl rfl

/-- The 16-bit wrap is the identity on values already in range. -/
lemma wrap16_eq_self (z : ℤ) (h1 : -32768 ≤ z) (h2 : z ≤ 32767) : wrap16 z = z := by
  unfold wrap16
  omega

lemma truncTowardZero_bounds (x : ℝ) (h1 : -32767 ≤ x) (h2 : x ≤ 32767) :
    -32767 ≤ truncTowardZero x ∧ truncTowardZero x ≤ 32767 := by
  unfold truncTowardZero
  split_ifs with h
  · refine ⟨le_trans (by norm_num) (Int.floor_nonneg.mpr h), ?_⟩
    have := Int.floor_mono h2
    rwa [show ((32767 : ℝ)) = ((32767 : ℤ) : ℝ) by norm_num, Int.floor_intCast] at this
  · refine ⟨?_, ?_⟩
    · have := Int.ceil_mono h1
      rwa [show ((-32767 : ℝ)) = ((-32767 : ℤ) : ℝ) by norm_num, Int.ceil_intCast] at this
    · exact Int.ceil_le.mpr (by push_cast; linarith)

/-- For samples in `[-1, 1]` the int16 cast does not wrap: it is plain
truncation toward zero of `s * 32767`, landing in `[-32767, 32767]`. -/
lemma quantizeSample_of_bounded (s : ℝ) (h1 : -1 ≤ s) (h2 : s ≤ 1) :
    quantizeSample s = truncTowardZero (s * 32767)
      ∧ -32767 ≤ quantizeSample s ∧ quantizeSample s ≤ 32767 := by
  obtain ⟨hb1, hb2⟩ := truncTowardZero_bounds (s * 32767) (by nlinarith) (by nlinarith)
  unfold quantizeSample
  rw [wrap16_eq_self _ (by omega) (by omega)]
  exact ⟨rfl, hb1, hb2⟩

lemma quantizeSample_one : quantizeSample 1 = 32767 := by
  unfold quantizeSample truncTowardZero
  rw [if_pos (by norm_num),
    show ((1 : ℝ) * 32767) = ((32767 : ℤ) : ℝ) by norm_num, Int.floor_intCast,
    wrap16_eq_self _ (by norm_num) (by norm_num)]

lemma quantizeSample_two : quantizeSample 2 = -2 := by
  unfold quantizeSample truncTowardZero
  rw [if_pos (by norm_num),
    show ((2 : ℝ) * 32767) = ((65534 : ℤ) : ℝ) by norm_num, Int.floor_intCast]
  unfold wrap16
  decide

/-- C5 (amended): the quantization step of `save_bell_sound` maps each
sample `s` to the int16 cast of `s * 32767`: truncation toward zero,
wrapped into the signed 16-bit range.  For samples in `[-1, 1]` no wrap
occurs, the result is `trunc(s * 32767) ∈ [-32767, 32767]`; a sample of
exactly 1.0 maps to 32767, but a sample of 2.0 wraps to −2 instead of
clipping. -/
theorem save_quantization (l : List ℝ) :
    (save_bell_sound l).1 = l.map quantizeSample
      ∧ (∀ s : ℝ, -1 ≤ s → s ≤ 1 →
          quantizeSample s = truncTowardZero (s * 32767)
            ∧ -32767 ≤ quantizeSample s ∧ quantizeSample s ≤ 32767)
      ∧ quantizeSample 1 = 32767 ∧ quantizeSample 2 = -2 :=
  ⟨rfl, fun s h1 h2 => quantizeSample_of_bounded s h1 h2,
    quantizeSample_one, quantizeSample_two⟩

/-- Witness for C5 at the sample 1/2. -/
theorem save_quantization_witness :
    quantizeSample (1 / 2 : ℝ) = truncTowardZero ((1 / 2 : ℝ) * 32767) :=
  ((save_quantization [1 / 2]).2.1 (1 / 2) (by norm_num) (by norm_num)).1

/-- C5 counterexample: the sample 2.0 is quantized by the code to −2 (the
int16 cast wraps 65534), while the spec's clipped rounding maps it to
32767. -/
theorem quantize_above_one_wraps :
    (save_bell_sound [(2 : ℝ)]).1 = [-2]
      ∧ specQuantizeSample 2 = 32767
      ∧ (save_bell_sound [(2 : ℝ)]).1 ≠ [specQuantizeSample 2] := by
  have hfl : ⌊(2 : ℝ) * 32767⌋ = 65534 := by
    rw [show ((2 : ℝ) * 32767) = ((65534 : ℤ) : ℝ) by norm_num, Int.floor_intCast]
  have hs : specQuantizeSample 2 = 32767 := by
    unfold specQuantizeSample specRoundReal
    rw [Int.fract, hfl, if_pos (by norm_num)]
    norm_num
  refine ⟨by simp [save_bell_sound, quantizeSample_two], hs, ?_⟩
  simp [save_bell_sound, quantizeSample_two, hs]

/-- C10: `save_bell_sound` does not modify the buffer it is given: the
scaling and the int16 conversion each allocate a fresh array, so after the
call the caller's samples are unchanged, and the quantized output has one
integer per input sample. -/
theorem save_bell_sound_preserves_input (signal : List ℝ) :
    (save_bell_sound signal).2 = signal
      ∧ ((save_bell_sound signal).1).length = signal.length := by
  unfold save_bell_sound
  exact ⟨rfl, List.length_map _ _⟩

end GenerateBells

namespace SoundExplore

/-- C9: in the notebook variant, whenever the fundamental is below 400 Hz
the harmonic sum is the base overtone sum plus exactly the three
low-register overtones of weights 0.05, 0.025, 0.05 at frequency multiples
4, 6, 8.5; at or above 400 Hz it is the base overtone sum alone. -/
theorem low_freq_overtones (f : ℚ) (t : ℝ) :
    (f < 400 → rawSample f t = baseHarmonics f t
        + 0.05 * Real.sin (2 * π * ((f : ℝ) * 4) * t)
        + 0.025 * Real.sin (2 * π * ((f : ℝ) * 6) * t)
        + 0.05 * Real.sin (2 * π * ((f : ℝ) * (17 / 2)) * t))
      ∧ (400 ≤ f → rawSample f t = baseHarmonics f t) := by
  constructor
  · intro h
    simp only [rawSample, baseHarmonics, if_pos h]
  · intro h
    simp only [rawSample, baseHarmonics, if_neg (not_lt.mpr h)]

/-- Witness for C9 at 399 Hz (below the threshold) and 400 Hz (at it). -/
theorem low_freq_overtones_witness :
    (rawSample 399 1 = baseHarmonics 399 1
        + 0.05 * Real.sin (2 * π * (((399 : ℚ) : ℝ) * 4) * 1)
        + 0.025 * Real.sin (2 * π * (((399 : ℚ) : ℝ) * 6) * 1)
        + 0.05 * Real.sin (2 * π * (((399 : ℚ) : ℝ) * (17 / 2)) * 1))
      ∧ rawSample 400 1 = baseHarmonics 400 1 :=
  ⟨(low_freq_overtones 399 1).1 (by norm_num),
    (low_freq_overtones 400 1).2 (by norm_num)⟩

end SoundExplore
